import Mathlib

/-
  Verification development for the MIDI writer in src/lib/vgm.c.

  The C file keeps the historical vgm_* API but writes a single-track
  Standard MIDI File into a growable in-memory byte buffer.  The embedding
  below models the global state of vgm.c (buffer, cursor, delay accumulator,
  track pointers, filename) as an explicit record, machine bytes as Nat
  values reduced mod 256 at the points where the C code narrows to uint8_t,
  and the fallible buffer accesses (writing through a NULL pointer) as an
  Except monad.  Pointers into the buffer are stored as offsets from the
  buffer base; NULL pointers are Option.none.
-/

namespace MidiWriter

/-- The in-memory output buffer: the bytes written so far (the region between
the base pointer vgmdata and the cursor data in vgm.c, as a list) and the
allocated size buffer_size.  Reallocation is assumed to succeed, so sizes are
plain naturals. -/
structure Buffer where
  content : List Nat
  capacity : Nat
deriving DecidableEq

/-- Errors of the embedding.  invalidState marks an operation that in the C
source would dereference the NULL buffer pointer, e.g. any write after
vgm_close has freed the buffer and nulled vgmdata and data. -/
inductive VgmError
  | invalidState
deriving DecidableEq

/-- The global mutable state of vgm.c: buf is vgmdata, data and buffer_size
(none when the buffer pointer is NULL), delayq the accumulated delay,
trackLenOff and trackStartOff are track_len_ptr and track_start_ptr stored as
offsets from the buffer base (none for NULL), filename the owned filename
string (none for NULL). -/
structure VgmState where
  buf : Option Buffer
  delayq : Nat
  trackLenOff : Option Nat
  trackStartOff : Option Nat
  filename : Option (List Char)
deriving DecidableEq

/-- The initial allocation size of vgm.c (MIDI_BUFFER). -/
def MIDI_BUFFER : Nat := 50000000

/-- The grow-on-low-headroom step performed after every append inside
write_u8 and write_bytes of vgm.c: if fewer than 1024 bytes of capacity
remain, double the capacity.  realloc is assumed to succeed and preserves the
content and the cursor offset. -/
def reserve_if_needed (b : Buffer) : Buffer :=
  if b.capacity - b.content.length < 1024 then
    { b with capacity := b.capacity * 2 }
  else b

/-- write_u8 from vgm.c: append one byte (a uint8_t value, hence the mod 256)
and then grow the buffer if headroom dropped below 1024.  Fails when the
buffer pointer is NULL. -/
def write_u8 (v : Nat) (s : VgmState) : Except VgmError VgmState :=
  match s.buf with
  | none => .error .invalidState
  | some b =>
      .ok { s with
        buf := some (reserve_if_needed { b with content := b.content ++ [v % 256] }) }

/-- write_bytes from vgm.c: memcpy a byte array onto the cursor, then the same
grow check as write_u8.  The source array holds uint8_t values, which the
embedding expresses by reducing every element mod 256. -/
def write_bytes (src : List Nat) (s : VgmState) : Except VgmError VgmState :=
  match s.buf with
  | none => .error .invalidState
  | some b =>
      .ok { s with
        buf := some (reserve_if_needed
          { b with content := b.content ++ src.map (fun x => x % 256) }) }

/-- write_be32 from vgm.c: four write_u8 calls, most significant byte first. -/
def write_be32 (v : Nat) (s : VgmState) : Except VgmError VgmState := do
  let s ← write_u8 ((v >>> 24) &&& 0xFF) s
  let s ← write_u8 ((v >>> 16) &&& 0xFF) s
  let s ← write_u8 ((v >>> 8) &&& 0xFF) s
  write_u8 (v &&& 0xFF) s

/-- write_be16 from vgm.c: two write_u8 calls, most significant byte first. -/
def write_be16 (v : Nat) (s : VgmState) : Except VgmError VgmState := do
  let s ← write_u8 ((v >>> 8) &&& 0xFF) s
  write_u8 (v &&& 0xFF) s

/-- The loop of write_varlen in vgm.c that collects the continuation-marked
7-bit groups of value >> 7, least significant group first.  The first
argument is recursion fuel; v iterations always suffice because
v / 128 < v for positive v, so varlenAux below runs the loop to
completion exactly as the C while loop does. -/
def varlenAuxGo : Nat → Nat → List Nat
  | _, 0 => []
  | 0, _ + 1 => []
  | fuel + 1, v + 1 => (0x80 ||| ((v + 1) % 0x80)) :: varlenAuxGo fuel ((v + 1) / 0x80)

/-- The continuation-marked 7-bit groups of v, least significant first (the
while loop of write_varlen applied to value >> 7). -/
def varlenAux (v : Nat) : List Nat := varlenAuxGo v v

/-- The byte sequence that write_varlen emits for value: the terminal low
7-bit group is collected first, then the loop groups, and the collected
buffer is written in reverse order (most significant group first). -/
def varlenList (value : Nat) : List Nat :=
  ((value % 0x80) :: varlenAux (value / 0x80)).reverse

/-- write_varlen from vgm.c: write the collected groups in reverse order via
write_u8. -/
def write_varlen (value : Nat) (s : VgmState) : Except VgmError VgmState :=
  List.foldlM (fun st v => write_u8 v st) s (varlenList value)

/-- The filename normalization of vgm_open: append .mid unless the name
already has at least four characters and ends in .mid (the strcmp of the last
four characters in vgm.c). -/
def normalize_mid (fname : List Char) : List Char :=
  if fname.length < 4 ∨ fname.drop (fname.length - 4) ≠ ['.', 'm', 'i', 'd'] then
    fname ++ ['.', 'm', 'i', 'd']
  else fname

/-- The current write offset (data - vgmdata in vgm.c); 0 when the buffer
pointer is NULL. -/
def stream_pos (s : VgmState) : Nat :=
  match s.buf with
  | some b => b.content.length
  | none => 0

/-- vgm_open from vgm.c.  Allocation is assumed to succeed (the source
returns early on malloc failure).  Writes the 14-byte MThd header, the MTrk
chunk id, a zero placeholder for the track length (recording its offset in
track_len_ptr) and records the payload start offset in track_start_ptr. -/
def vgm_open (fname : List Char) : Except VgmError VgmState := do
  let s : VgmState := {
    buf := some { content := [], capacity := MIDI_BUFFER },
    delayq := 0,
    trackLenOff := none,
    trackStartOff := none,
    filename := some (normalize_mid fname) }
  -- MThd chunk id
  let s ← write_bytes [0x4D, 0x54, 0x68, 0x64] s
  -- header length 6, format 0, one track, division 480
  let s ← write_be32 6 s
  let s ← write_be16 0 s
  let s ← write_be16 1 s
  let s ← write_be16 480 s
  -- MTrk chunk id, then the placeholder length whose position is recorded
  let s ← write_bytes [0x4D, 0x54, 0x72, 0x6B] s
  let s := { s with trackLenOff := some (stream_pos s) }
  let s ← write_be32 0 s
  let s := { s with trackStartOff := some (stream_pos s) }
  return s

/-- flush_delay_get_ticks from vgm.c: ticks = delayq / 10, delayq := 0. -/
def flush_delay_get_ticks (s : VgmState) : Nat × VgmState :=
  (s.delayq / 10, { s with delayq := 0 })

/-- The delay-flush snippet repeated verbatim at the top of vgm_write,
vgm_write_tag and vgm_close: when at least one full tick is pending, flush
the accumulator and write its VLQ; otherwise write a zero delta-time and
leave delayq untouched. -/
def flush_delta (s : VgmState) : Except VgmError VgmState :=
  if 10 ≤ s.delayq then
    let p := flush_delay_get_ticks s
    write_varlen p.1 p.2
  else
    write_varlen 0 s

/-- vgm_write from vgm.c: flush the pending delta-time, then dispatch on the
high nibble of command (channel = low nibble of port).  The final else also
covers the explicit SysEx (0xF0, 0xF7) no-op arm of the source, whose body is
identical to the unknown-command arm. -/
def vgm_write (command port reg value : Nat) (s : VgmState) : Except VgmError VgmState := do
  let s ← flush_delta s
  let status := command &&& 0xF0
  let channel := port &&& 0x0F
  if status = 0x90 then
    let s ← write_u8 (0x90 ||| channel) s
    let s ← write_u8 (reg &&& 0x7F) s
    write_u8 (value &&& 0x7F) s
  else if status = 0x80 then
    let s ← write_u8 (0x80 ||| channel) s
    let s ← write_u8 (reg &&& 0x7F) s
    write_u8 (value &&& 0x7F) s
  else if status = 0xB0 then
    let s ← write_u8 (0xB0 ||| channel) s
    let s ← write_u8 (reg &&& 0x7F) s
    write_u8 (value &&& 0x7F) s
  else if status = 0xC0 then
    let s ← write_u8 (0xC0 ||| channel) s
    write_u8 (value &&& 0x7F) s
  else if status = 0xE0 then
    let bend := value &&& 0x3FFF
    let lsb := bend &&& 0x7F
    let msb := (bend >>> 7) &&& 0x7F
    let s ← write_u8 (0xE0 ||| channel) s
    let s ← write_u8 lsb s
    write_u8 msb s
  else if command = 0xFF then
    let meta_type := reg &&& 0xFF
    if meta_type = 0x2F then
      let s ← write_u8 0xFF s
      let s ← write_u8 0x2F s
      write_u8 0x00 s
    else
      pure s
  else
    pure s

/-- vgm_delay from vgm.c: delayq += delay on a uint32_t accumulator. -/
def vgm_delay (delay : Nat) (s : VgmState) : VgmState :=
  { s with delayq := (s.delayq + delay) % 2 ^ 32 }

/-- vgm_poke32 from vgm.c: an explicit no-op kept for API compatibility. -/
def vgm_poke32 (_offset : Int) (_d : Nat) (s : VgmState) : VgmState := s

/-- vgm_poke8 from vgm.c: an explicit no-op kept for API compatibility. -/
def vgm_poke8 (_offset : Int) (_d : Nat) (s : VgmState) : VgmState := s

/-- vgm_datablock from vgm.c: an explicit no-op kept for API compatibility. -/
def vgm_datablock (_dbtype _dbsize : Nat) (_datablock : List Nat)
    (_maxsize _mask : Nat) (_flags : Int) (s : VgmState) : VgmState := s

/-- vgm_setloop from vgm.c: an explicit no-op kept for API compatibility. -/
def vgm_setloop (s : VgmState) : VgmState := s

/-- vgm_write_tag from vgm.c.  The tag text is produced by snprintf from the
game name, the song id and a wall-clock timestamp; the clock makes the text
an external input, so the embedding takes the finished text as a byte list
and, like snprintf with its 512-byte buffer, truncates it to at most 511
bytes.  The flush, the FF 01 meta header, the VLQ length and the text bytes
follow the source exactly. -/
def vgm_write_tag (tagText : List Nat) (s : VgmState) : Except VgmError VgmState := do
  let s ← flush_delta s
  let buf := tagText.take 511
  let s ← write_u8 0xFF s
  let s ← write_u8 0x01 s
  let s ← write_varlen buf.length s
  write_bytes buf s

/-- Overwrite four bytes at offset i with the big-endian encoding of v, as
the patch loop at the end of vgm_close does. -/
def setBE32 (l : List Nat) (i : Nat) (v : Nat) : List Nat :=
  (((l.set i ((v >>> 24) &&& 0xFF)).set (i + 1) ((v >>> 16) &&& 0xFF)).set
      (i + 2) ((v >>> 8) &&& 0xFF)).set (i + 3) (v &&& 0xFF)

/-- The length-patch step of vgm_close: when both track pointers are set,
overwrite the 4 placeholder bytes with the big-endian track length
data - track_start_ptr (a uint32_t, hence the mod).  When the buffer pointer
is NULL this point is unreachable, because the preceding writes of vgm_close
fail first; the embedding then leaves the state unchanged. -/
def patch_track_len (s : VgmState) : VgmState :=
  match s.trackLenOff, s.trackStartOff, s.buf with
  | some lo, some so, some b =>
      let track_length := (b.content.length - so) % 2 ^ 32
      { s with buf := some { b with content := setBE32 b.content lo track_length } }
  | _, _, _ => s

/-- vgm_close from vgm.c: flush the residual delay, append the end-of-track
meta event FF 2F 00, patch the track length, hand the whole buffer to
write_file (returned here as the filename and bytes pair) and finally free
the buffer and the filename, nulling their pointers. -/
def vgm_close (s : VgmState) :
    Except VgmError (VgmState × (Option (List Char) × List Nat)) := do
  let s ← flush_delta s
  let s ← write_u8 0xFF s
  let s ← write_u8 0x2F s
  let s ← write_u8 0x00 s
  let s := patch_track_len s
  match s.buf with
  | some b => return ({ s with buf := none, filename := none }, (s.filename, b.content))
  | none => .error .invalidState

/-- A call trace between vgm_open and vgm_close: the event, tag and delay
operations of the public API. -/
inductive VgmOp
  | write (command port reg value : Nat)
  | writeTag (tagText : List Nat)
  | delay (d : Nat)
deriving DecidableEq

/-- One API call. -/
def vgmOpStep (op : VgmOp) (s : VgmState) : Except VgmError VgmState :=
  match op with
  | .write c p r v => vgm_write c p r v s
  | .writeTag t => vgm_write_tag t s
  | .delay d => .ok (vgm_delay d s)

/-- Run a list of API calls in order. -/
def runOps (ops : List VgmOp) (s : VgmState) : Except VgmError VgmState :=
  match ops with
  | [] => .ok s
  | op :: rest => do runOps rest (← vgmOpStep op s)

/-- The bytes handed to write_file by a full open, run, close session; none
when some step failed. -/
def midiOutput (name : List Char) (ops : List VgmOp) : Option (List Nat) :=
  match (do
      let s0 ← vgm_open name
      let s1 ← runOps ops s0
      let r ← vgm_close s1
      pure r.2.2 : Except VgmError (List Nat)) with
  | .ok l => some l
  | .error _ => none

/-- Modelled from the spec: the VLQ decoder (the source only encodes).
Reads 7-bit groups most significant first, accumulating until a byte without
the 0x80 continuation bit. -/
def vlqDecodeAux : List Nat → Nat → Option Nat
  | [], _ => none
  | b :: rest, acc =>
      if b < 0x80 then some (acc * 0x80 + b)
      else vlqDecodeAux rest (acc * 0x80 + (b - 0x80))

/-- Modelled from the spec: decode a VLQ byte sequence starting from an empty
accumulator. -/
def vlqDecode (l : List Nat) : Option Nat := vlqDecodeAux l 0

/-- The event mapping table of the spec (section 4.4), keyed on the high
nibble of command, with the end-of-track condition amended to compare the low
byte of the 16-bit data1 field against 0x2F as the source does. -/
def specEventPayload (command port reg value : Nat) : List Nat :=
  let status := command &&& 0xF0
  let channel := port &&& 0x0F
  if status = 0x90 then [0x90 ||| channel, reg &&& 0x7F, value &&& 0x7F]
  else if status = 0x80 then [0x80 ||| channel, reg &&& 0x7F, value &&& 0x7F]
  else if status = 0xB0 then [0xB0 ||| channel, reg &&& 0x7F, value &&& 0x7F]
  else if status = 0xC0 then [0xC0 ||| channel, value &&& 0x7F]
  else if status = 0xE0 then
    [0xE0 ||| channel, (value &&& 0x3FFF) &&& 0x7F, ((value &&& 0x3FFF) >>> 7) &&& 0x7F]
  else if command = 0xFF ∧ reg &&& 0xFF = 0x2F then [0xFF, 0x2F, 0x00]
  else []

/-- A command that maps to no supported message: no status-nibble match and
not an end-of-track meta request (low byte of data1 equal to 0x2F). -/
def specUnsupported (command reg : Nat) : Prop :=
  command &&& 0xF0 ≠ 0x90 ∧ command &&& 0xF0 ≠ 0x80 ∧ command &&& 0xF0 ≠ 0xB0 ∧
  command &&& 0xF0 ≠ 0xC0 ∧ command &&& 0xF0 ≠ 0xE0 ∧
  ¬(command = 0xFF ∧ reg &&& 0xFF = 0x2F)

/-- The value of delayq after one flush: reset when at least one full tick
was pending, otherwise unchanged (the sub-tick residue is carried forward). -/
def flushedDelay (d : Nat) : Nat := if 10 ≤ d then 0 else d

/-- The sink headroom invariant: at least 1024 free bytes remain, which in
particular puts the cursor strictly inside the allocation. -/
def sinkInv (b : Buffer) : Prop := b.content.length + 1024 ≤ b.capacity

/-- The 22 bytes present in the buffer right after vgm_open: the MThd header
(magic, length 6, format 0, one track, division 480), the MTrk magic and the
four placeholder length bytes. -/
def openBytes22 : List Nat :=
  [0x4D, 0x54, 0x68, 0x64, 0, 0, 0, 6, 0, 0, 0, 1, 1, 0xE0,
   0x4D, 0x54, 0x72, 0x6B, 0, 0, 0, 0]

/-- States reachable between open and close: a live buffer with headroom,
the fixed 22-byte opening, and the track offsets recorded by vgm_open. -/
def openInv (s : VgmState) : Prop :=
  ∃ b, s.buf = some b ∧ sinkInv b ∧ 22 ≤ b.content.length ∧
    b.content.take 22 = openBytes22 ∧
    s.trackLenOff = some 18 ∧ s.trackStartOff = some 22

/-- The state produced by vgm_open for a given raw filename. -/
def openState (name : List Char) : VgmState :=
  { buf := some { content := openBytes22, capacity := MIDI_BUFFER },
    delayq := 0,
    trackLenOff := some 18,
    trackStartOff := some 22,
    filename := some (normalize_mid name) }

/-- The big-endian 32-bit value stored at offset i of a byte list. -/
def be32At (l : List Nat) (i : Nat) : Nat :=
  l.getD i 0 * 16777216 + l.getD (i + 1) 0 * 65536 + l.getD (i + 2) 0 * 256 + l.getD (i + 3) 0

instance {ε α : Type} [DecidableEq ε] [DecidableEq α] : DecidableEq (Except ε α) :=
  fun a b =>
    match a, b with
    | .ok x, .ok y => if h : x = y then .isTrue (by rw [h]) else .isFalse (by simp [h])
    | .error x, .error y => if h : x = y then .isTrue (by rw [h]) else .isFalse (by simp [h])
    | .ok _, .error _ => .isFalse (by simp)
    | .error _, .ok _ => .isFalse (by simp)

/-- The sample filename of the spec scenarios. -/
def csong : List Char := ['s', 'o', 'n', 'g']

/-- The state right after vgm_open "song". -/
def sampleOpen : VgmState := openState csong

/-- The open sample state carrying a sub-tick pending delay of 5. -/
def sampleOpenD5 : VgmState := { sampleOpen with delayq := 5 }

/-- The open sample state right after vgm_delay 25 from a zero accumulator. -/
def sampleOpenD25 : VgmState := { sampleOpen with delayq := 25 }

/-- The state left behind by vgm_close on the freshly opened sample stream:
buffer and filename freed, track offsets left stale. -/
def closedSample : VgmState :=
  { buf := none, delayq := 0, trackLenOff := some 18, trackStartOff := some 22,
    filename := none }

/-- The bytes vgm_close hands to write_file for the empty sample session:
header, a zero delta-time, end of track, and the patched length 4. -/
def closedSampleOut : List Nat :=
  [0x4D, 0x54, 0x68, 0x64, 0, 0, 0, 6, 0, 0, 0, 1, 1, 0xE0,
   0x4D, 0x54, 0x72, 0x6B, 0, 0, 0, 4, 0, 0xFF, 0x2F, 0]

/-- The event sequence of the end-to-end scenario of the spec (section 8). -/
def c2ops : List VgmOp :=
  [.write 0x90 0 60 100, .delay 50, .write 0x80 0 60 0]

/-- The full file produced by the end-to-end scenario: note the patched track
length 12 at offsets 18 to 21. -/
def c2bytes : List Nat :=
  [0x4D, 0x54, 0x68, 0x64, 0, 0, 0, 6, 0, 0, 0, 1, 1, 0xE0,
   0x4D, 0x54, 0x72, 0x6B, 0, 0, 0, 12,
   0, 0x90, 0x3C, 0x64, 5, 0x80, 0x3C, 0, 0, 0xFF, 0x2F, 0]

/-- The state reached by running the end-to-end scenario events (without the
close) from the freshly opened sample stream. -/
def c2runState : VgmState :=
  { buf := some ({ content := openBytes22 ++ [0x00, 0x90, 0x3C, 0x64, 0x05, 0x80, 0x3C, 0x00],
                   capacity := MIDI_BUFFER }),
    delayq := 0, trackLenOff := some 18, trackStartOff := some 22,
    filename := some ['s', 'o', 'n', 'g', '.', 'm', 'i', 'd'] }

/-
  Helper lemmas.
-/

theorem exceptBind_ok {α β : Type} (a : α) (f : α → Except VgmError β) :
    (Except.ok a >>= f : Except VgmError β) = f a := rfl

theorem exceptBind_error {α β : Type} (e : VgmError) (f : α → Except VgmError β) :
    (Except.error e >>= f : Except VgmError β) = .error e := rfl

theorem reserve_content (b : Buffer) : (reserve_if_needed b).content = b.content := by
  unfold reserve_if_needed
  split <;> rfl

theorem sinkInv_reserve (b : Buffer) (l : List Nat) (hlen : l.length ≤ 1024)
    (h : sinkInv b) :
    sinkInv (reserve_if_needed { b with content := b.content ++ l }) := by
  unfold sinkInv reserve_if_needed at *
  simp only [List.length_append]
  split <;> simp_all <;> omega

/-- A write primitive that always succeeds on a live buffer, appends exactly
the given bytes, leaves every other field of the state unchanged, and
preserves the headroom invariant. -/
def GoodWrite (f : VgmState → Except VgmError VgmState) (out : List Nat) : Prop :=
  ∀ s b, s.buf = some b →
    ∃ b2, f s = .ok { s with buf := some b2 } ∧
      b2.content = b.content ++ out ∧ (sinkInv b → sinkInv b2)

theorem GoodWrite.bind {f g : VgmState → Except VgmError VgmState}
    {o1 o2 : List Nat} (hf : GoodWrite f o1) (hg : GoodWrite g o2) :
    GoodWrite (fun s => f s >>= g) (o1 ++ o2) := by
  intro s b hb
  obtain ⟨b1, hf1, hc1, hi1⟩ := hf s b hb
  obtain ⟨b2, hg1, hc2, hi2⟩ := hg { s with buf := some b1 } b1 rfl
  refine ⟨b2, ?_, ?_, fun h => hi2 (hi1 h)⟩
  · show f s >>= g = _
    rw [hf1, exceptBind_ok]
    exact hg1
  · rw [hc2, hc1, List.append_assoc]

theorem goodWrite_u8 (v : Nat) : GoodWrite (write_u8 v) [v % 256] := by
  intro s b hb
  refine ⟨reserve_if_needed { b with content := b.content ++ [v % 256] }, ?_, ?_, ?_⟩
  · simp [write_u8, hb]
  · exact reserve_content _
  · exact fun h => sinkInv_reserve b [v % 256] (by simp) h

theorem goodWrite_bytes (src : List Nat) (hlen : src.length ≤ 1024) :
    GoodWrite (write_bytes src) (src.map (fun x => x % 256)) := by
  intro s b hb
  refine ⟨reserve_if_needed
    { b with content := b.content ++ src.map (fun x => x % 256) }, ?_, ?_, ?_⟩
  · simp [write_bytes, hb]
  · exact reserve_content _
  · exact fun h => sinkInv_reserve b _ (by simpa using hlen) h

theorem goodWrite_foldl_u8 (L : List Nat) :
    GoodWrite (fun s => List.foldlM (fun st v => write_u8 v st) s L)
      (L.map (fun x => x % 256)) := by
  induction L with
  | nil =>
      intro s b hb
      refine ⟨b, ?_, by simp, fun h => h⟩
      show Except.ok s = _
      cases s
      simp_all
  | cons v t ih =>
      have h := GoodWrite.bind (goodWrite_u8 v) ih
      intro s b hb
      obtain ⟨b2, h1, h2, h3⟩ := h s b hb
      exact ⟨b2, h1, by simpa using h2, h3⟩

theorem varlenAuxGo_fuel : ∀ f1 f2 v, v ≤ f1 → v ≤ f2 →
    varlenAuxGo f1 v = varlenAuxGo f2 v := by
  intro f1
  induction f1 with
  | zero =>
      intro f2 v h1 _
      have hv : v = 0 := Nat.le_zero.mp h1
      subst hv
      cases f2 <;> rfl
  | succ k ih =>
      intro f2 v h1 h2
      cases v with
      | zero => cases f2 <;> rfl
      | succ n =>
          cases f2 with
          | zero => omega
          | succ m =>
              show _ :: varlenAuxGo k ((n + 1) / 0x80) = _ :: varlenAuxGo m ((n + 1) / 0x80)
              have hd : (n + 1) / 0x80 < n + 1 := Nat.div_lt_self (Nat.succ_pos n) (by norm_num)
              exact congrArg (List.cons _) (ih m ((n + 1) / 0x80) (by omega) (by omega))

theorem varlenAux_eq (v : Nat) :
    varlenAux v = if v = 0 then [] else (0x80 ||| (v % 0x80)) :: varlenAux (v / 0x80) := by
  cases v with
  | zero => rfl
  | succ n =>
      show varlenAuxGo (n + 1) (n + 1) = _
      have hd : (n + 1) / 0x80 < n + 1 := Nat.div_lt_self (Nat.succ_pos n) (by norm_num)
      simp only [Nat.succ_ne_zero, if_neg]
      show _ :: varlenAuxGo n ((n + 1) / 0x80) = _ :: varlenAux ((n + 1) / 0x80)
      rw [varlenAux]
      rw [varlenAuxGo_fuel n ((n + 1) / 0x80) ((n + 1) / 0x80) (by omega) (by omega)]

theorem lor128_eq_add : ∀ c, c < 128 → (0x80 ||| c) = 0x80 + c := by decide

theorem varlenAux_lt_256 (v : Nat) : ∀ a ∈ varlenAux v, a < 256 := by
  induction v using Nat.strong_induction_on with
  | _ v ih =>
      rw [varlenAux_eq]
      split
      · simp
      · rename_i hv
        intro a ha
        rcases List.mem_cons.mp ha with h | h
        · subst h
          rw [lor128_eq_add _ (Nat.mod_lt _ (by norm_num))]
          have := Nat.mod_lt v (y := 0x80) (by norm_num)
          omega
        · exact ih (v / 0x80) (Nat.div_lt_self (Nat.pos_of_ne_zero hv) (by norm_num)) a h

theorem varlenList_lt_256 (n : Nat) : ∀ a ∈ varlenList n, a < 256 := by
  intro a ha
  rw [varlenList, List.mem_reverse, List.mem_cons] at ha
  rcases ha with h | h
  · subst h
    have := Nat.mod_lt n (y := 0x80) (by norm_num)
    omega
  · exact varlenAux_lt_256 _ a h

theorem map_mod_eq_self : ∀ (l : List Nat), (∀ a ∈ l, a < 256) →
    l.map (fun x => x % 256) = l := by
  intro l h
  induction l with
  | nil => rfl
  | cons a t ih =>
      simp only [List.map_cons]
      rw [Nat.mod_eq_of_lt (h a (by simp)), ih (fun x hx => h x (by simp [hx]))]

theorem varlenList_map_mod (n : Nat) :
    (varlenList n).map (fun x => x % 256) = varlenList n :=
  map_mod_eq_self _ (varlenList_lt_256 n)

theorem goodWrite_varlen (n : Nat) : GoodWrite (write_varlen n) (varlenList n) := by
  have h := goodWrite_foldl_u8 (varlenList n)
  rw [varlenList_map_mod] at h
  exact h

theorem varlenList_ne_nil (n : Nat) : varlenList n ≠ [] := by
  rw [varlenList]
  simp

/-- On a closed stream, writing a VLQ fails at its very first byte. -/
theorem write_varlen_closed (n : Nat) (s : VgmState) (h : s.buf = none) :
    write_varlen n s = .error .invalidState := by
  rw [write_varlen]
  obtain ⟨y, ys, hy⟩ := List.exists_cons_of_ne_nil (varlenList_ne_nil n)
  rw [hy]
  show write_u8 y s >>= _ = _
  rw [write_u8, h]
  rfl

theorem flush_delta_closed (s : VgmState) (h : s.buf = none) :
    flush_delta s = .error .invalidState := by
  rw [flush_delta]
  split
  · exact write_varlen_closed _ _ h
  · exact write_varlen_closed _ _ h

/-- The flush preceding every event, tag and close: it writes the VLQ of
delayq / 10 (also in the sub-tick branch, where that quotient is zero) and
resets delayq only when at least one full tick was pending. -/
theorem flush_delta_ok (s : VgmState) (b : Buffer) (hb : s.buf = some b) :
    ∃ b2, flush_delta s = .ok { s with buf := some b2, delayq := flushedDelay s.delayq } ∧
      b2.content = b.content ++ varlenList (s.delayq / 10) ∧
      (sinkInv b → sinkInv b2) := by
  rw [flush_delta, flushedDelay]
  split
  · obtain ⟨b2, h1, h2, h3⟩ :=
      goodWrite_varlen (s.delayq / 10) { s with delayq := 0 } b hb
    exact ⟨b2, h1, h2, h3⟩
  · rename_i hd
    obtain ⟨b2, h1, h2, h3⟩ := goodWrite_varlen 0 s b hb
    have hz : s.delayq / 10 = 0 := Nat.div_eq_of_lt (by omega)
    rw [hz]
    exact ⟨b2, h1, h2, h3⟩

theorem goodWrite2 (x y : Nat) :
    GoodWrite (fun s => write_u8 x s >>= fun s => write_u8 y s)
      [x % 256, y % 256] := by
  have h := (goodWrite_u8 x).bind (goodWrite_u8 y)
  intro s b hb
  obtain ⟨b2, h1, h2, h3⟩ := h s b hb
  exact ⟨b2, h1, by simpa using h2, h3⟩

theorem goodWrite3 (x y z : Nat) :
    GoodWrite
      (fun s => write_u8 x s >>= fun s => write_u8 y s >>= fun s => write_u8 z s)
      [x % 256, y % 256, z % 256] := by
  have h := (goodWrite_u8 x).bind ((goodWrite_u8 y).bind (goodWrite_u8 z))
  intro s b hb
  obtain ⟨b2, h1, h2, h3⟩ := h s b hb
  exact ⟨b2, h1, by simpa using h2, h3⟩

theorem and127_mod (x : Nat) : (x &&& 0x7F) % 256 = x &&& 0x7F :=
  Nat.mod_eq_of_lt (lt_of_le_of_lt Nat.and_le_right (by norm_num))

theorem and15_lt (x : Nat) : x &&& 0x0F < 16 :=
  lt_of_le_of_lt Nat.and_le_right (by norm_num)

theorem lor90_mod : ∀ c, c < 16 → (0x90 ||| c) % 256 = 0x90 ||| c := by decide

theorem lor80_mod : ∀ c, c < 16 → (0x80 ||| c) % 256 = 0x80 ||| c := by decide

theorem lorB0_mod : ∀ c, c < 16 → (0xB0 ||| c) % 256 = 0xB0 ||| c := by decide

theorem lorC0_mod : ∀ c, c < 16 → (0xC0 ||| c) % 256 = 0xC0 ||| c := by decide

theorem lorE0_mod : ∀ c, c < 16 → (0xE0 ||| c) % 256 = 0xE0 ||| c := by decide

/-- The full effect of vgm_write on an open stream: the VLQ of the flushed
tick count followed by exactly the payload given by the mapping table; the
delay accumulator resets only when a full tick was pending; all other fields
of the state are unchanged; the sink headroom invariant is preserved. -/
theorem vgm_write_ok (command port reg value : Nat) (s : VgmState) (b : Buffer)
    (hb : s.buf = some b) :
    ∃ b2, vgm_write command port reg value s =
        .ok { s with buf := some b2, delayq := flushedDelay s.delayq } ∧
      b2.content = b.content ++ varlenList (s.delayq / 10) ++
        specEventPayload command port reg value ∧
      (sinkInv b → sinkInv b2) := by
  obtain ⟨b1, hf, hc1, hi1⟩ := flush_delta_ok s b hb
  rw [vgm_write, hf, exceptBind_ok, specEventPayload]
  simp only []
  by_cases h90 : command &&& 0xF0 = 0x90
  · rw [if_pos h90, if_pos h90]
    obtain ⟨b2, h1, h2, h3⟩ :=
      goodWrite3 (0x90 ||| (port &&& 0x0F)) (reg &&& 0x7F) (value &&& 0x7F)
        { s with buf := some b1, delayq := flushedDelay s.delayq } b1 rfl
    refine ⟨b2, h1, ?_, fun h => h3 (hi1 h)⟩
    rw [h2, hc1, lor90_mod _ (and15_lt port), and127_mod, and127_mod]
  · rw [if_neg h90, if_neg h90]
    by_cases h80 : command &&& 0xF0 = 0x80
    · rw [if_pos h80, if_pos h80]
      obtain ⟨b2, h1, h2, h3⟩ :=
        goodWrite3 (0x80 ||| (port &&& 0x0F)) (reg &&& 0x7F) (value &&& 0x7F)
          { s with buf := some b1, delayq := flushedDelay s.delayq } b1 rfl
      refine ⟨b2, h1, ?_, fun h => h3 (hi1 h)⟩
      rw [h2, hc1, lor80_mod _ (and15_lt port), and127_mod, and127_mod]
    · rw [if_neg h80, if_neg h80]
      by_cases hB0 : command &&& 0xF0 = 0xB0
      · rw [if_pos hB0, if_pos hB0]
        obtain ⟨b2, h1, h2, h3⟩ :=
          goodWrite3 (0xB0 ||| (port &&& 0x0F)) (reg &&& 0x7F) (value &&& 0x7F)
            { s with buf := some b1, delayq := flushedDelay s.delayq } b1 rfl
        refine ⟨b2, h1, ?_, fun h => h3 (hi1 h)⟩
        rw [h2, hc1, lorB0_mod _ (and15_lt port), and127_mod, and127_mod]
      · rw [if_neg hB0, if_neg hB0]
        by_cases hC0 : command &&& 0xF0 = 0xC0
        · rw [if_pos hC0, if_pos hC0]
          obtain ⟨b2, h1, h2, h3⟩ :=
            goodWrite2 (0xC0 ||| (port &&& 0x0F)) (value &&& 0x7F)
              { s with buf := some b1, delayq := flushedDelay s.delayq } b1 rfl
          refine ⟨b2, h1, ?_, fun h => h3 (hi1 h)⟩
          rw [h2, hc1, lorC0_mod _ (and15_lt port), and127_mod]
        · rw [if_neg hC0, if_neg hC0]
          by_cases hE0 : command &&& 0xF0 = 0xE0
          · rw [if_pos hE0, if_pos hE0]
            obtain ⟨b2, h1, h2, h3⟩ :=
              goodWrite3 (0xE0 ||| (port &&& 0x0F)) ((value &&& 0x3FFF) &&& 0x7F)
                (((value &&& 0x3FFF) >>> 7) &&& 0x7F)
                { s with buf := some b1, delayq := flushedDelay s.delayq } b1 rfl
            refine ⟨b2, h1, ?_, fun h => h3 (hi1 h)⟩
            rw [h2, hc1, lorE0_mod _ (and15_lt port), and127_mod, and127_mod]
          · rw [if_neg hE0, if_neg hE0]
            by_cases hFF : command = 0xFF
            · rw [if_pos hFF]
              by_cases h2F : reg &&& 0xFF = 0x2F
              · rw [if_pos h2F, if_pos ⟨hFF, h2F⟩]
                obtain ⟨b2, h1, h2, h3⟩ :=
                  goodWrite3 0xFF 0x2F 0x00
                    { s with buf := some b1, delayq := flushedDelay s.delayq } b1 rfl
                refine ⟨b2, h1, ?_, fun h => h3 (hi1 h)⟩
                rw [h2, hc1]
              · rw [if_neg h2F, if_neg (fun hand => h2F hand.2)]
                exact ⟨b1, rfl, by rw [hc1]; simp, hi1⟩
            · rw [if_neg hFF, if_neg (fun hand => hFF hand.1)]
              exact ⟨b1, rfl, by rw [hc1]; simp, hi1⟩

/-- The full effect of vgm_write_tag on an open stream: the flushed VLQ, the
FF 01 text meta header, the VLQ byte length of the (truncated) tag text and
the text bytes themselves. -/
theorem vgm_write_tag_ok (t : List Nat) (s : VgmState) (b : Buffer)
    (hb : s.buf = some b) :
    ∃ b2, vgm_write_tag t s =
        .ok { s with buf := some b2, delayq := flushedDelay s.delayq } ∧
      b2.content = b.content ++ varlenList (s.delayq / 10) ++
        ([0xFF, 0x01] ++ varlenList (t.take 511).length ++
          (t.take 511).map (fun x => x % 256)) ∧
      (sinkInv b → sinkInv b2) := by
  obtain ⟨b1, hf, hc1, hi1⟩ := flush_delta_ok s b hb
  have h511 : (t.take 511).length ≤ 1024 := by
    have := List.length_take 511 t
    omega
  have gw := (goodWrite_u8 0xFF).bind ((goodWrite_u8 0x01).bind
    ((goodWrite_varlen (t.take 511).length).bind (goodWrite_bytes (t.take 511) h511)))
  rw [vgm_write_tag, hf, exceptBind_ok]
  obtain ⟨b2, h1, h2, h3⟩ :=
    gw { s with buf := some b1, delayq := flushedDelay s.delayq } b1 rfl
  refine ⟨b2, h1, ?_, fun h => h3 (hi1 h)⟩
  rw [h2, hc1]
  simp [List.append_assoc]

/-- Unfolded form of write_u8 on a live buffer. -/
theorem write_u8_eq (v : Nat) (s : VgmState) (b : Buffer) (hb : s.buf = some b) :
    write_u8 v s =
      .ok { s with buf := some (reserve_if_needed
        { b with content := b.content ++ [v % 256] }) } := by
  simp [write_u8, hb]

/-- Three pending write_u8 calls followed by an arbitrary continuation. -/
theorem bind3_u8 {β : Type} (x y z : Nat)
    (k : VgmState → Except VgmError β) (s : VgmState) (b : Buffer)
    (hb : s.buf = some b) :
    ∃ b2,
      (write_u8 x s >>= fun s => write_u8 y s >>= fun s => write_u8 z s >>= k) =
        k { s with buf := some b2 } ∧
      b2.content = b.content ++ [x % 256, y % 256, z % 256] ∧
      (sinkInv b → sinkInv b2) := by
  obtain ⟨b1, h1, hc1, hi1⟩ := goodWrite_u8 x s b hb
  obtain ⟨b2, h2, hc2, hi2⟩ := goodWrite_u8 y { s with buf := some b1 } b1 rfl
  obtain ⟨b3, h3, hc3, hi3⟩ := goodWrite_u8 z { s with buf := some b2 } b2 rfl
  refine ⟨b3, ?_, ?_, fun h => hi3 (hi2 (hi1 h))⟩
  · rw [h1, exceptBind_ok, h2, exceptBind_ok, h3, exceptBind_ok]
  · rw [hc3, hc2, hc1]
    simp

/-- The full effect of vgm_close on an open stream whose track offsets are
set: the flushed VLQ and the end-of-track bytes are appended, the four
placeholder bytes are patched with the final track length, the whole buffer
is handed to write_file, and buffer and filename are freed. -/
theorem vgm_close_ok (s : VgmState) (b : Buffer) (lo so : Nat)
    (hb : s.buf = some b) (hlo : s.trackLenOff = some lo)
    (hso : s.trackStartOff = some so) :
    ∃ b2 : Buffer,
      b2.content = b.content ++ varlenList (s.delayq / 10) ++ [0xFF, 0x2F, 0x00] ∧
      (sinkInv b → sinkInv b2) ∧
      vgm_close s = .ok
        ({ s with buf := none, filename := none, delayq := flushedDelay s.delayq },
         (s.filename,
          setBE32 b2.content lo ((b2.content.length - so) % 2 ^ 32))) := by
  obtain ⟨b1, hf, hc1, hi1⟩ := flush_delta_ok s b hb
  rw [vgm_close, hf, exceptBind_ok]
  obtain ⟨b2, hch, hc2, hi2⟩ := bind3_u8 0xFF 0x2F 0x00 _
    { s with buf := some b1, delayq := flushedDelay s.delayq } b1 rfl
  rw [hch]
  refine ⟨b2, ?_, fun h => hi2 (hi1 h), ?_⟩
  · rw [hc2, hc1]
  · show (let s2 := patch_track_len _; match s2.buf with
      | some b => Except.ok ({ s2 with buf := none, filename := none }, (s2.filename, b.content))
      | none => Except.error VgmError.invalidState) = _
    simp only [patch_track_len, hlo, hso]

/-- Patching strictly before an offset does not change the bytes from that
offset on. -/
theorem drop_setBE32 (l : List Nat) (i v n : Nat) (h : i + 4 ≤ n) :
    (setBE32 l i v).drop n = l.drop n := by
  rw [setBE32, List.drop_set, List.drop_set, List.drop_set, List.drop_set]
  rw [if_pos (by omega), if_pos (by omega), if_pos (by omega), if_pos (by omega)]

/-- Patching at or after an offset does not change the bytes before it. -/
theorem take_setBE32 (l : List Nat) (i v n : Nat) (h : n ≤ i) :
    (setBE32 l i v).take n = l.take n := by
  have hlen : ∀ (l2 : List Nat) (m : Nat) (a : Nat), n ≤ m →
      (l2.set m a).take n = l2.take n := by
    intro l2 m a hm
    rw [List.set_take, List.set_eq_of_length_le]
    calc (l2.take n).length ≤ n := by
          rw [List.length_take]; omega
      _ ≤ m := hm
  rw [setBE32, hlen _ _ _ (by omega), hlen _ _ _ (by omega),
    hlen _ _ _ (by omega), hlen _ _ _ h]

theorem vgm_open_eq (name : List Char) : vgm_open name = .ok (openState name) := rfl

theorem openInv_openState (name : List Char) : openInv (openState name) := by
  refine ⟨{ content := openBytes22, capacity := MIDI_BUFFER }, rfl, ?_, ?_, ?_, rfl, rfl⟩
  · unfold sinkInv
    decide
  · decide
  · decide

theorem take22_append (l1 l2 : List Nat) (h : 22 ≤ l1.length)
    (ht : l1.take 22 = openBytes22) : (l1 ++ l2).take 22 = openBytes22 := by
  rw [List.take_append_eq_append_take, ht]
  have h0 : 22 - l1.length = 0 := by omega
  rw [h0]
  simp

/-- Every API call between open and close preserves the reachable-state
invariant. -/
theorem vgmOpStep_inv (op : VgmOp) (s s2 : VgmState) (hs : openInv s)
    (h : vgmOpStep op s = .ok s2) : openInv s2 := by
  obtain ⟨b, hb, hsink, hlen, htake, hlo, hso⟩ := hs
  cases op with
  | write c p r v =>
      obtain ⟨b2, h1, h2, h3⟩ := vgm_write_ok c p r v s b hb
      rw [vgmOpStep, h1] at h
      injection h with h
      subst h
      refine ⟨b2, rfl, h3 hsink, ?_, ?_, hlo, hso⟩
      · rw [h2]
        simp only [List.length_append]
        omega
      · rw [h2, List.append_assoc]
        exact take22_append _ _ hlen htake
  | writeTag t =>
      obtain ⟨b2, h1, h2, h3⟩ := vgm_write_tag_ok t s b hb
      rw [vgmOpStep, h1] at h
      injection h with h
      subst h
      refine ⟨b2, rfl, h3 hsink, ?_, ?_, hlo, hso⟩
      · rw [h2]
        simp only [List.length_append]
        omega
      · rw [h2, List.append_assoc, List.append_assoc]
        exact take22_append _ _ hlen htake
  | delay d =>
      rw [vgmOpStep] at h
      injection h with h
      subst h
      exact ⟨b, hb, hsink, hlen, htake, hlo, hso⟩

/-- The reachable-state invariant is preserved along any run of API calls. -/
theorem runOps_inv (ops : List VgmOp) : ∀ s s2 : VgmState, openInv s →
    runOps ops s = .ok s2 → openInv s2 := by
  induction ops with
  | nil =>
      intro s s2 hs h
      rw [runOps] at h
      injection h with h
      subst h
      exact hs
  | cons op rest ih =>
      intro s s2 hs h
      rw [runOps] at h
      cases hstep : vgmOpStep op s with
      | error e =>
          rw [hstep, exceptBind_error] at h
          cases h
      | ok s1 =>
          rw [hstep, exceptBind_ok] at h
          exact ih s1 s2 (vgmOpStep_inv op s s1 hs hstep) h

set_option maxRecDepth 4000 in
theorem vlqDecodeAux_varlenAux (v : Nat) : ∀ acc tail,
    vlqDecodeAux ((varlenAux v).reverse ++ tail) acc =
      vlqDecodeAux tail (acc * 0x80 ^ (varlenAux v).length + v) := by
  induction v using Nat.strong_induction_on with
  | _ v ih =>
      intro acc tail
      rw [varlenAux_eq]
      split
      · rename_i h0
        subst h0
        simp
      · rename_i h0
        rw [List.reverse_cons, List.append_assoc,
          ih (v / 0x80) (Nat.div_lt_self (Nat.pos_of_ne_zero h0) (by norm_num)) acc _]
        have hm : v % 0x80 < 0x80 := Nat.mod_lt _ (by norm_num)
        show vlqDecodeAux ((0x80 ||| (v % 0x80)) :: tail) _ = _
        rw [lor128_eq_add _ hm, vlqDecodeAux]
        have hneg : ¬(0x80 + v % 0x80 < 0x80) := by omega
        rw [if_neg hneg]
        congr 1
        simp only [List.length_cons]
        have hd : 0x80 * (v / 0x80) + v % 0x80 = v := Nat.div_add_mod v 0x80
        rw [Nat.add_sub_cancel_left, Nat.add_mul, Nat.mul_assoc, ← Nat.pow_succ,
          Nat.add_assoc]
        congr 1
        omega

theorem vlq_decode_encode (x : Nat) : vlqDecode (varlenList x) = some x := by
  rw [vlqDecode, varlenList, List.reverse_cons,
    vlqDecodeAux_varlenAux (x / 0x80) 0 [x % 0x80]]
  have hm : x % 0x80 < 0x80 := Nat.mod_lt _ (by norm_num)
  rw [vlqDecodeAux, if_pos hm]
  congr 1
  rw [Nat.zero_mul, Nat.zero_add]
  omega

theorem varlenAux_length_le : ∀ k v, v < 0x80 ^ k → (varlenAux v).length ≤ k := by
  intro k
  induction k with
  | zero =>
      intro v hv
      have h0 : v = 0 := by
        have : (0x80 : Nat) ^ 0 = 1 := by norm_num
        omega
      subst h0
      simp [varlenAux, varlenAuxGo]
  | succ k ih =>
      intro v hv
      rw [varlenAux_eq]
      split
      · simp
      · rename_i h0
        simp only [List.length_cons]
        have hq : v / 0x80 < 0x80 ^ k := by
          rw [Nat.div_lt_iff_lt_mul (by norm_num)]
          calc v < 0x80 ^ (k + 1) := hv
            _ = 0x80 ^ k * 0x80 := by rw [Nat.pow_succ]
        have := ih _ hq
        omega

theorem varlenList_length_le (x : Nat) (hx : x < 2 ^ 28) :
    (varlenList x).length ≤ 5 := by
  rw [varlenList, List.length_reverse, List.length_cons]
  have hq : x / 0x80 < 0x80 ^ 3 := by
    have h3 : (0x80 : Nat) ^ 3 = 2097152 := by norm_num
    omega
  have := varlenAux_length_le 3 (x / 0x80) hq
  omega

theorem and255_mod (x : Nat) : x &&& 0xFF = x % 256 := by
  have h := Nat.and_pow_two_sub_one_eq_mod x 8
  norm_num at h
  exact h

theorem be32_recompose (n : Nat) (h : n < 2 ^ 32) :
    ((n >>> 24) &&& 0xFF) * 16777216 + ((n >>> 16) &&& 0xFF) * 65536 +
      ((n >>> 8) &&& 0xFF) * 256 + (n &&& 0xFF) = n := by
  rw [and255_mod, and255_mod, and255_mod, and255_mod,
    Nat.shiftRight_eq_div_pow, Nat.shiftRight_eq_div_pow, Nat.shiftRight_eq_div_pow]
  have h24 : (2 : Nat) ^ 24 = 16777216 := by norm_num
  have h16 : (2 : Nat) ^ 16 = 65536 := by norm_num
  have h8 : (2 : Nat) ^ 8 = 256 := by norm_num
  have h32 : (2 : Nat) ^ 32 = 4294967296 := by norm_num
  rw [h24, h16, h8]
  omega

theorem getD_set_ne (l : List Nat) (i j a : Nat) (h : i ≠ j) :
    (l.set i a).getD j 0 = l.getD j 0 := by
  simp [List.getD_eq_getElem?_getD, List.getElem?_set_ne h]

theorem getD_set_self (l : List Nat) (i a : Nat) (h : i < l.length) :
    (l.set i a).getD i 0 = a := by
  simp [List.getD_eq_getElem?_getD, List.getElem?_set_self h]

theorem length_setBE32 (l : List Nat) (i v : Nat) :
    (setBE32 l i v).length = l.length := by
  simp [setBE32]

theorem be32At_setBE32 (l : List Nat) (i v : Nat) (h : i + 4 ≤ l.length) :
    be32At (setBE32 l i v) i =
      ((v >>> 24) &&& 0xFF) * 16777216 + ((v >>> 16) &&& 0xFF) * 65536 +
        ((v >>> 8) &&& 0xFF) * 256 + (v &&& 0xFF) := by
  have e1 : (setBE32 l i v).getD i 0 = (v >>> 24) &&& 0xFF := by
    rw [setBE32, getD_set_ne _ _ _ _ (by omega), getD_set_ne _ _ _ _ (by omega),
      getD_set_ne _ _ _ _ (by omega), getD_set_self _ _ _ (by omega)]
  have e2 : (setBE32 l i v).getD (i + 1) 0 = (v >>> 16) &&& 0xFF := by
    rw [setBE32, getD_set_ne _ _ _ _ (by omega), getD_set_ne _ _ _ _ (by omega),
      getD_set_self _ _ _ (by rw [List.length_set]; omega)]
  have e3 : (setBE32 l i v).getD (i + 2) 0 = (v >>> 8) &&& 0xFF := by
    rw [setBE32, getD_set_ne _ _ _ _ (by omega),
      getD_set_self _ _ _ (by rw [List.length_set, List.length_set]; omega)]
  have e4 : (setBE32 l i v).getD (i + 3) 0 = v &&& 0xFF := by
    rw [setBE32,
      getD_set_self _ _ _
        (by rw [List.length_set, List.length_set, List.length_set]; omega)]
  rw [be32At, e1, e2, e3, e4]

theorem specEventPayload_unsupported (command port reg value : Nat)
    (h : specUnsupported command reg) :
    specEventPayload command port reg value = [] := by
  obtain ⟨h1, h2, h3, h4, h5, h6⟩ := h
  simp [specEventPayload, h1, h2, h3, h4, h5, h6]

/-
  Claim theorems.
-/

set_option maxRecDepth 8000 in
/-- Claim C1 counterexample: with a sub-tick pending delay of 5, vgm_write
emits the VLQ of 5 / 10 = 0 but does NOT reset the accumulator to 0: the
remainder is carried forward, contradicting the claim that every flush
resets the counter and permanently discards the sub-tick remainder. -/
theorem c1_flush_counterexample :
    (vgm_write 0x90 0 60 100 sampleOpenD5).toOption.map VgmState.delayq = some 5 ∧
    (5 : Nat) ≠ 0 := by
  refine ⟨?_, by decide⟩
  decide

/-- Claim C1 (amended): every vgm_write, vgm_write_tag and vgm_close first
emits the VLQ encoding of delayq / 10 (truncating division); the accumulator
resets to 0 exactly when at least one full tick (delayq at least 10) was
pending, in which case the sub-tick remainder is discarded; when delayq is
below 10 the counter keeps its value, carrying the sub-tick amount forward.
The flush happens once per event, meta-event or tag, and once at close. -/
theorem c1_delta_flush :
    (∀ (s : VgmState) (b : Buffer) (command port reg value : Nat), s.buf = some b →
      ∃ b2 rest, vgm_write command port reg value s =
          .ok { s with buf := some b2, delayq := flushedDelay s.delayq } ∧
        b2.content = b.content ++ varlenList (s.delayq / 10) ++ rest) ∧
    (∀ (s : VgmState) (b : Buffer) (tagText : List Nat), s.buf = some b →
      ∃ b2 rest, vgm_write_tag tagText s =
          .ok { s with buf := some b2, delayq := flushedDelay s.delayq } ∧
        b2.content = b.content ++ varlenList (s.delayq / 10) ++ rest) ∧
    (∀ (s : VgmState) (b : Buffer) (lo so : Nat), s.buf = some b →
      s.trackLenOff = some lo → s.trackStartOff = some so →
      lo + 4 ≤ b.content.length →
      ∀ (s2 : VgmState) (fn : Option (List Char)) (out : List Nat),
        vgm_close s = .ok (s2, (fn, out)) →
        s2.delayq = flushedDelay s.delayq ∧
        out.drop b.content.length =
          varlenList (s.delayq / 10) ++ [0xFF, 0x2F, 0x00]) := by
  refine ⟨?_, ?_, ?_⟩
  · intro s b command port reg value hb
    obtain ⟨b2, h1, h2, _⟩ := vgm_write_ok command port reg value s b hb
    exact ⟨b2, specEventPayload command port reg value, h1, h2⟩
  · intro s b tagText hb
    obtain ⟨b2, h1, h2, _⟩ := vgm_write_tag_ok tagText s b hb
    exact ⟨b2, _, h1, h2⟩
  · intro s b lo so hb hlo hso hlen s2 fn out h
    obtain ⟨b2, hc2, _, hclose⟩ := vgm_close_ok s b lo so hb hlo hso
    rw [hclose] at h
    injection h with h
    simp only [Prod.mk.injEq] at h
    obtain ⟨h1, _, h3⟩ := h
    subst h1
    subst h3
    refine ⟨rfl, ?_⟩
    rw [drop_setBE32 _ _ _ _ (by omega), hc2, List.append_assoc]
    have := List.drop_left b.content (varlenList (s.delayq / 10) ++ [0xFF, 0x2F, 0x00])
    exact this

/-- Claim C1 witness: the amended flush behavior at a concrete open state
with a pending delay of 25 (two ticks plus a discarded remainder of 5). -/
theorem c1_delta_flush_witness :
    ∃ b2 rest, vgm_write 0xA0 0 0 0 sampleOpenD25 =
        .ok { sampleOpenD25 with buf := some b2,
                                 delayq := flushedDelay sampleOpenD25.delayq } ∧
      b2.content = openBytes22 ++ varlenList (sampleOpenD25.delayq / 10) ++ rest :=
  c1_delta_flush.1 sampleOpenD25 { content := openBytes22, capacity := MIDI_BUFFER }
    0xA0 0 0 0 rfl

set_option maxRecDepth 8000 in
/-- Claim C2 counterexample: the end-to-end scenario produces exactly the
claimed track payload bytes, but the patched 4-byte track length field holds
12 (four delta-time or event groups of 4 + 4 + 4 bytes), not 11 as claimed. -/
theorem c2_scenario_counterexample :
    midiOutput csong c2ops = some c2bytes ∧
    c2bytes.drop 22 =
      [0x00, 0x90, 0x3C, 0x64, 0x05, 0x80, 0x3C, 0x00, 0x00, 0xFF, 0x2F, 0x00] ∧
    be32At c2bytes 18 ≠ 11 := by
  refine ⟨?_, by decide, by decide⟩
  decide

set_option maxRecDepth 8000 in
/-- Claim C2 (amended): the end-to-end scenario open, Note-On, delay 50,
Note-Off, close produces exactly the track payload 00 90 3C 64, 05 80 3C 00,
00 FF 2F 00 and the patched big-endian track length field holds 12 (the
payload includes the zero delta-time byte before FF 2F 00, so the length is
4 + 4 + 4, not 4 + 4 + 3). -/
theorem c2_scenario :
    midiOutput csong c2ops = some c2bytes ∧
    c2bytes.drop 22 =
      [0x00, 0x90, 0x3C, 0x64, 0x05, 0x80, 0x3C, 0x00, 0x00, 0xFF, 0x2F, 0x00] ∧
    be32At c2bytes 18 = 12 := by
  refine ⟨?_, by decide, by decide⟩
  decide

set_option maxRecDepth 8000 in
/-- Claim C3 counterexample: with command 0xFF and reg 0x12F (whose low byte
is 0x2F but which is not equal to 0x2F), the claim predicts no payload bytes,
yet the code emits the end-of-track payload FF 2F 00 after the zero
delta-time, because the source compares only reg & 0xFF against 0x2F. -/
theorem c3_mapping_counterexample :
    (vgm_write 0xFF 0 0x12F 0 sampleOpen).toOption.map
        (fun s2 => s2.buf.map Buffer.content) =
      some (some (openBytes22 ++ [0x00, 0xFF, 0x2F, 0x00])) ∧
    (0x12F : Nat) ≠ 0x2F := by
  refine ⟨?_, by decide⟩
  decide

/-- Claim C3 (amended): in the open state the bytes emitted by vgm_write
after the delta-time are exactly those of the mapping table keyed on
command & 0xF0 with channel = port & 0x0F; 0x90, 0x80, 0xB0 emit
status or channel, reg & 0x7F, value & 0x7F; 0xC0 emits status or channel
then value & 0x7F with reg ignored; 0xE0 emits status or channel, the low
7 bits, then the next 7 bits of the 14-bit value; command 0xFF emits
FF 2F 00 exactly when reg & 0xFF = 0x2F (not only when reg = 0x2F); every
other command emits no payload bytes. -/
theorem c3_event_mapping (s : VgmState) (b : Buffer)
    (command port reg value : Nat) (hb : s.buf = some b) :
    ∃ b2, vgm_write command port reg value s =
        .ok { s with buf := some b2, delayq := flushedDelay s.delayq } ∧
      b2.content = b.content ++ varlenList (s.delayq / 10) ++
        specEventPayload command port reg value := by
  obtain ⟨b2, h1, h2, _⟩ := vgm_write_ok command port reg value s b hb
  exact ⟨b2, h1, h2⟩

/-- Claim C3 witness: the mapping at a concrete Program Change event. -/
theorem c3_event_mapping_witness :
    ∃ b2, vgm_write 0xC0 3 7 0x25 sampleOpen =
        .ok { sampleOpen with buf := some b2,
                              delayq := flushedDelay sampleOpen.delayq } ∧
      b2.content = openBytes22 ++ varlenList (sampleOpen.delayq / 10) ++
        specEventPayload 0xC0 3 7 0x25 :=
  c3_event_mapping sampleOpen { content := openBytes22, capacity := MIDI_BUFFER }
    0xC0 3 7 0x25 rfl

set_option maxRecDepth 8000 in
/-- Claim C4 counterexample: command 0xFF with reg 0x12F is, by the claim,
one of the commands that map to no supported message (reg is not 0x2F), so
after vgm_delay 30 only the byte 03 should be written; the code instead also
emits the payload FF 2F 00, because it compares only reg & 0xFF. -/
theorem c4_unsupported_counterexample :
    (vgm_write 0xFF 0 0x12F 0 (vgm_delay 30 sampleOpen)).toOption.map
        (fun s2 => s2.buf.map Buffer.content) =
      some (some (openBytes22 ++ [0x03, 0xFF, 0x2F, 0x00])) ∧
    ([0x03, 0xFF, 0x2F, 0x00] : List Nat) ≠ [0x03] := by
  refine ⟨?_, by decide⟩
  decide

/-- Claim C4 (amended): for every command that maps to no supported message
(no status-nibble match and not command 0xFF with reg & 0xFF = 0x2F), the
pending delta-time VLQ is still written before dispatch and no payload bytes
follow; in particular, after vgm_delay 30 from a zero accumulator such a call
writes exactly the single byte 0x03 and resets the accumulator to 0. -/
theorem c4_unsupported_flush :
    (∀ (s : VgmState) (b : Buffer) (command port reg value : Nat), s.buf = some b →
      specUnsupported command reg →
      ∃ b2, vgm_write command port reg value s =
          .ok { s with buf := some b2, delayq := flushedDelay s.delayq } ∧
        b2.content = b.content ++ varlenList (s.delayq / 10)) ∧
    (∀ (s : VgmState) (b : Buffer) (command port reg value : Nat), s.buf = some b →
      s.delayq = 0 → specUnsupported command reg →
      ∃ b2, vgm_write command port reg value (vgm_delay 30 s) =
          .ok { s with buf := some b2, delayq := 0 } ∧
        b2.content = b.content ++ [0x03]) := by
  constructor
  · intro s b command port reg value hb hu
    obtain ⟨b2, h1, h2, _⟩ := vgm_write_ok command port reg value s b hb
    rw [specEventPayload_unsupported command port reg value hu, List.append_nil] at h2
    exact ⟨b2, h1, h2⟩
  · intro s b command port reg value hb hd0 hu
    obtain ⟨b2, h1, h2, _⟩ :=
      vgm_write_ok command port reg value (vgm_delay 30 s) b hb
    have hd : (vgm_delay 30 s).delayq = 30 := by
      rw [vgm_delay]
      simp [hd0]
    rw [hd] at h1 h2
    rw [specEventPayload_unsupported command port reg value hu, List.append_nil] at h2
    refine ⟨b2, ?_, h2⟩
    exact h1

/-- Claim C4 witness: the unsupported command 0xA0 after vgm_delay 30 on the
freshly opened sample stream writes exactly the byte 0x03. -/
theorem c4_unsupported_flush_witness :
    ∃ b2, vgm_write 0xA0 0 0 0 (vgm_delay 30 sampleOpen) =
        .ok { sampleOpen with buf := some b2, delayq := 0 } ∧
      b2.content = openBytes22 ++ [0x03] :=
  c4_unsupported_flush.2 sampleOpen { content := openBytes22, capacity := MIDI_BUFFER }
    0xA0 0 0 0 rfl rfl (by unfold specUnsupported; decide)

theorem eta_buf (s : VgmState) (b : Buffer) (h : s.buf = some b) :
    { s with buf := some b } = s := by
  cases s
  cases h
  rfl

theorem patch_keeps (s : VgmState) (b : Buffer) (hb : s.buf = some b) :
    ∃ b2, patch_track_len s = { s with buf := some b2 } := by
  rw [patch_track_len]
  split
  · exact ⟨_, rfl⟩
  · exact ⟨b, (eta_buf s b hb).symm⟩

/-- vgm_close succeeds on any open stream (track offsets set or not), frees
the buffer and the filename, and performs the single flush. -/
theorem vgm_close_any (s : VgmState) (b : Buffer) (hb : s.buf = some b) :
    ∃ outBytes : List Nat,
      vgm_close s = .ok
        ({ s with buf := none, filename := none, delayq := flushedDelay s.delayq },
         (s.filename, outBytes)) := by
  obtain ⟨b1, hf, _, _⟩ := flush_delta_ok s b hb
  rw [vgm_close, hf, exceptBind_ok]
  obtain ⟨b2, hch, _, _⟩ := bind3_u8 0xFF 0x2F 0x00 _
    { s with buf := some b1, delayq := flushedDelay s.delayq } b1 rfl
  rw [hch]
  obtain ⟨b3, hp⟩ :=
    patch_keeps { s with buf := some b2, delayq := flushedDelay s.delayq } b2 rfl
  refine ⟨b3.content, ?_⟩
  show (let s2 := patch_track_len _; match s2.buf with
      | some bb =>
          Except.ok ({ s2 with buf := none, filename := none }, (s2.filename, bb.content))
      | none => Except.error VgmError.invalidState) = _
  rw [hp]

/-- Claim C5: every produced byte stream begins with the exact 14-byte MThd
header (magic, big-endian length 6, format 0, track count 1, division 480),
independent of which events were written: it holds for the in-memory buffer
after any run of API calls and for the bytes handed to write_file at close
(the length patch touches only offsets 18 to 21). -/
theorem c5_header_invariant (name : List Char) (ops : List VgmOp)
    (s0 s s2 : VgmState) (fn : Option (List Char)) (out : List Nat)
    (h0 : vgm_open name = .ok s0) (h1 : runOps ops s0 = .ok s)
    (h2 : vgm_close s = .ok (s2, (fn, out))) :
    (∃ b, s.buf = some b ∧ b.content.take 14 =
      [0x4D, 0x54, 0x68, 0x64, 0, 0, 0, 6, 0, 0, 0, 1, 1, 0xE0]) ∧
    out.take 14 = [0x4D, 0x54, 0x68, 0x64, 0, 0, 0, 6, 0, 0, 0, 1, 1, 0xE0] := by
  rw [vgm_open_eq] at h0
  injection h0 with h0
  subst h0
  obtain ⟨b, hb, hsink, hlen, htake, hlo, hso⟩ :=
    runOps_inv ops _ s (openInv_openState name) h1
  have ht14 : b.content.take 14 =
      [0x4D, 0x54, 0x68, 0x64, 0, 0, 0, 6, 0, 0, 0, 1, 1, 0xE0] := by
    have h := congrArg (List.take 14) htake
    rw [List.take_take] at h
    norm_num at h
    rw [h]
    decide
  refine ⟨⟨b, hb, ht14⟩, ?_⟩
  obtain ⟨b2, hc2, _, hclose⟩ := vgm_close_ok s b 18 22 hb hlo hso
  rw [hclose] at h2
  injection h2 with h2
  simp only [Prod.mk.injEq] at h2
  obtain ⟨_, _, h3⟩ := h2
  subst h3
  rw [take_setBE32 _ _ _ _ (by omega), hc2, List.append_assoc,
    List.take_append_eq_append_take]
  have h0' : 14 - b.content.length = 0 := by omega
  rw [h0', List.take_zero, List.append_nil, ht14]

set_option maxRecDepth 8000 in
/-- Claim C5 witness: the header invariant at the empty session on the sample
stream. -/
theorem c5_header_invariant_witness :
    (∃ b, (openState csong).buf = some b ∧ b.content.take 14 =
      [0x4D, 0x54, 0x68, 0x64, 0, 0, 0, 6, 0, 0, 0, 1, 1, 0xE0]) ∧
    closedSampleOut.take 14 =
      [0x4D, 0x54, 0x68, 0x64, 0, 0, 0, 6, 0, 0, 0, 1, 1, 0xE0] :=
  c5_header_invariant csong [] (openState csong) (openState csong) closedSample
    (some ['s', 'o', 'n', 'g', '.', 'm', 'i', 'd']) closedSampleOut rfl rfl
    (by decide)

/-- Claim C6: after close, the 4-byte big-endian track length field at the
offset recorded at open time (18) equals the number of bytes between the
payload-start offset (22) and the end of the buffer, inclusive of the
trailing FF 2F 00 appended by close.  The size hypothesis keeps the length
inside the range of the 32-bit field, as every C-representable buffer is. -/
theorem c6_track_length_patch (name : List Char) (ops : List VgmOp)
    (s0 s s2 : VgmState) (fn : Option (List Char)) (out : List Nat)
    (h0 : vgm_open name = .ok s0) (h1 : runOps ops s0 = .ok s)
    (h2 : vgm_close s = .ok (s2, (fn, out)))
    (hsize : out.length < 22 + 2 ^ 32) :
    s.trackLenOff = some 18 ∧ s.trackStartOff = some 22 ∧
    be32At out 18 = out.length - 22 := by
  rw [vgm_open_eq] at h0
  injection h0 with h0
  subst h0
  obtain ⟨b, hb, hsink, hlen, htake, hlo, hso⟩ :=
    runOps_inv ops _ s (openInv_openState name) h1
  obtain ⟨b2, hc2, _, hclose⟩ := vgm_close_ok s b 18 22 hb hlo hso
  rw [hclose] at h2
  injection h2 with h2
  simp only [Prod.mk.injEq] at h2
  obtain ⟨_, _, h3⟩ := h2
  subst h3
  refine ⟨hlo, hso, ?_⟩
  have hlen2 : 22 ≤ b2.content.length := by
    rw [hc2]
    simp only [List.length_append]
    omega
  rw [length_setBE32] at hsize ⊢
  have hmod : (b2.content.length - 22) % 2 ^ 32 = b2.content.length - 22 :=
    Nat.mod_eq_of_lt (by omega)
  rw [be32At_setBE32 _ _ _ (by omega), hmod, be32_recompose _ (by omega)]

set_option maxRecDepth 8000 in
/-- Claim C6 witness: the track length field of the empty session equals 4
(the zero delta-time plus FF 2F 00). -/
theorem c6_track_length_patch_witness :
    (openState csong).trackLenOff = some 18 ∧
    (openState csong).trackStartOff = some 22 ∧
    be32At closedSampleOut 18 = closedSampleOut.length - 22 :=
  c6_track_length_patch csong [] (openState csong) (openState csong) closedSample
    (some ['s', 'o', 'n', 'g', '.', 'm', 'i', 'd']) closedSampleOut rfl rfl
    (by decide) (by decide)

/-- Claim C7: for every x below 2 to the 28, decoding (7-bit groups, most
significant first, until a byte without the 0x80 continuation bit) the byte
sequence produced by write_varlen yields x again, and the encoding never
exceeds 5 bytes. -/
theorem c7_vlq_round_trip (x : Nat) (hx : x < 2 ^ 28) :
    vlqDecode (varlenList x) = some x ∧ (varlenList x).length ≤ 5 :=
  ⟨vlq_decode_encode x, varlenList_length_le x hx⟩

/-- Claim C7 witness: the round trip at the concrete input 123456. -/
theorem c7_vlq_round_trip_witness :
    vlqDecode (varlenList 123456) = some 123456 ∧ (varlenList 123456).length ≤ 5 :=
  c7_vlq_round_trip 123456 (by norm_num)

/-- Claim C8: after a successful vgm_close, the stream state has a freed
(NULL) buffer and filename, and calling vgm_close again surfaces the
invalidState error (in the C source the second call would dereference the
NULL buffer pointer): it neither frees the buffer again nor writes any
output, since it fails before reaching either step. -/
theorem c8_double_close (s s2 : VgmState) (fn : Option (List Char))
    (out : List Nat) (h : vgm_close s = .ok (s2, (fn, out))) :
    s2.buf = none ∧ s2.filename = none ∧
    vgm_close s2 = .error .invalidState := by
  cases hb : s.buf with
  | none =>
      rw [vgm_close, flush_delta_closed s hb, exceptBind_error] at h
      cases h
  | some b =>
      obtain ⟨outB, hcl⟩ := vgm_close_any s b hb
      rw [hcl] at h
      injection h with h
      simp only [Prod.mk.injEq] at h
      obtain ⟨h1, _, _⟩ := h
      subst h1
      refine ⟨rfl, rfl, ?_⟩
      rw [vgm_close, flush_delta_closed _ rfl, exceptBind_error]

set_option maxRecDepth 8000 in
/-- Claim C8 witness: the double close on the sample stream. -/
theorem c8_double_close_witness :
    closedSample.buf = none ∧ closedSample.filename = none ∧
    vgm_close closedSample = .error .invalidState :=
  c8_double_close (openState csong) closedSample
    (some ['s', 'o', 'n', 'g', '.', 'm', 'i', 'd']) closedSampleOut (by decide)

/-- Claim C9: assuming every reallocation succeeds, after any run of API
calls from vgm_open the write cursor never exceeds the buffer capacity and at
least the 1024-byte low-water mark of capacity remains before the next
append (the sink doubles its capacity whenever headroom falls below 1024,
preserving content and cursor); hence no append writes past the end of the
allocation.  The invariant is inductive over every intermediate state, so it
holds before and after every byte or multi-byte append the program makes. -/
theorem c9_buffer_headroom (name : List Char) (ops : List VgmOp)
    (s0 s : VgmState) (h0 : vgm_open name = .ok s0)
    (h1 : runOps ops s0 = .ok s) :
    ∃ b, s.buf = some b ∧ b.content.length ≤ b.capacity ∧
      1024 ≤ b.capacity - b.content.length := by
  rw [vgm_open_eq] at h0
  injection h0 with h0
  subst h0
  obtain ⟨b, hb, hsink, _, _, _, _⟩ :=
    runOps_inv ops _ s (openInv_openState name) h1
  unfold sinkInv at hsink
  exact ⟨b, hb, by omega, by omega⟩

set_option maxRecDepth 8000 in
/-- Claim C9 witness: the headroom invariant after the end-to-end scenario
events. -/
theorem c9_buffer_headroom_witness :
    ∃ b, c2runState.buf = some b ∧ b.content.length ≤ b.capacity ∧
      1024 ≤ b.capacity - b.content.length :=
  c9_buffer_headroom csong c2ops (openState csong) c2runState rfl (by decide)

/-- Claim C10: vgm_poke32, vgm_poke8, vgm_datablock and vgm_setloop are
complete no-ops for every argument: the whole output state (buffer contents,
cursor, delay accumulator, track offsets and filename) is unchanged. -/
theorem c10_stubs_no_op (off : Int) (d32 d8 : Nat) (dbtype dbsize : Nat)
    (datablock : List Nat) (maxsize mask : Nat) (flags : Int) (s : VgmState) :
    vgm_poke32 off d32 s = s ∧ vgm_poke8 off d8 s = s ∧
    vgm_datablock dbtype dbsize datablock maxsize mask flags s = s ∧
    vgm_setloop s = s :=
  ⟨rfl, rfl, rfl, rfl⟩

end MidiWriter
